import Mathlib
set_option maxRecDepth 4000

/-!
Verification development for the Chatsave conversion core.

This file gives a shallow embedding of the repository's two conversion
components and its storage merge:

* the DOM-to-markdown extractor (`extractTextContent`, `processListElement`,
  `processListItem`, `cleanMarkdown`, `extractTableContent`,
  `extractCodeLanguage`) from the shared content-script utilities;
* the HTML sanitizer (`sanitizeHTML`) from the ChatGPT content script;
* the markdown-to-HTML renderer (`renderMarkdown`, `isListLine`,
  `parseList`, `buildListHTML`, `getIndent`, `inlineFormat`, `escapeHtml`)
  from the viewer;
* the IndexedDB merge (`saveConversation`) from the storage layer.

Strings are modelled on `List Char` (`String.data`) with hand-rolled,
kernel-reducible scanners that mirror the JavaScript regular expressions
branch by branch.  A DOM tree is the inductive `DomNode`; DOM mutation in
the sanitizer is modelled by a pure transformation that reproduces the
snapshot semantics of the source's `Array.from(node.childNodes)` loop.

Recursive tree walks and string scanners carry an explicit fuel argument
that bounds recursion depth; every entry point supplies fuel exceeding any
reachable depth (for the nested-list builder, whose termination is the
subject of claim C9, sufficiency is proved in the progress lemmas).
-/

namespace Chatsave

/-! ## Character and string helpers -/

/-- The JavaScript `\s` whitespace class, restricted to the code points
relevant to this code base (space, tab, newline, carriage return,
vertical tab, form feed). -/
def isWS (c : Char) : Bool :=
  c = ' ' || c = '\t' || c = '\n' || c = '\r' || c = Char.ofNat 11 || c = Char.ofNat 12

/-- The JavaScript `\w` word class: ASCII letters, digits and underscore. -/
def isWordChar (c : Char) : Bool :=
  c.isAlpha || c.isDigit || c = '_'

def trimLeadWS (l : List Char) : List Char := l.dropWhile isWS

def trimTrailWS (l : List Char) : List Char := (l.reverse.dropWhile isWS).reverse

/-- JavaScript `String.prototype.trim`. -/
def jsTrim (s : String) : String := .mk (trimTrailWS (trimLeadWS s.data))

/-- JavaScript `String.prototype.trimEnd`. -/
def jsTrimEnd (s : String) : String := .mk (trimTrailWS s.data)

/-- If `l` begins with the pattern `p`, return the remainder after it. -/
def dropPat : List Char → List Char → Option (List Char)
  | [], l => some l
  | _ :: _, [] => none
  | p :: ps, c :: cs => if c = p then dropPat ps cs else none

/-- JavaScript `String.prototype.startsWith`. -/
def jsStartsWith (s pat : String) : Bool := (dropPat pat.data s.data).isSome

/-- `parseInt` on a run of decimal digits. -/
def natOfDigitsAux (acc : Nat) : List Char → Nat
  | [] => acc
  | c :: cs => natOfDigitsAux (acc * 10 + (c.toNat - '0'.toNat)) cs

def natOfDigits (l : List Char) : Nat := natOfDigitsAux 0 l

/-- JavaScript `String.prototype.split('\n')` (on the character list). -/
def splitNl : List Char → List (List Char)
  | [] => [[]]
  | c :: rest =>
    if c = '\n' then [] :: splitNl rest
    else
      match splitNl rest with
      | [] => [[c]]
      | h :: t => (c :: h) :: t

def splitLines (s : String) : List String := (splitNl s.data).map String.mk

/-- JavaScript `Array.prototype.join(sep)`. -/
def joinSep (sep : String) : List String → String
  | [] => ""
  | [s] => s
  | s :: rest => s ++ sep ++ joinSep sep rest

def joinNl (l : List String) : String := joinSep "\n" l

def concatAll : List String → String
  | [] => ""
  | s :: rest => s ++ concatAll rest

/-! ## `cleanMarkdown` (extractor post-processing)

The source is
`text.replace(/\n{3,}/g, '\n\n').replace(/^\n+/, '').replace(/\n+$/, '')`. -/

/-- State machine for `replace(/\n{3,}/g, '\n\n')`: `k` counts the pending
run of consecutive newlines; a run of three or more is emitted as exactly
two. -/
def collapseNlAux : Nat → List Char → List Char
  | k, [] => List.replicate (min k 2) '\n'
  | k, c :: cs =>
    if c = '\n' then collapseNlAux (k + 1) cs
    else List.replicate (min k 2) '\n' ++ c :: collapseNlAux 0 cs

def collapseNl (l : List Char) : List Char := collapseNlAux 0 l

/-- `replace(/^\n+/, '')`. -/
def dropLeadNl (l : List Char) : List Char := l.dropWhile (fun c => c = '\n')

/-- `replace(/\n+$/, '')`. -/
def dropTrailNl (l : List Char) : List Char := (l.reverse.dropWhile (fun c => c = '\n')).reverse

/-- `cleanMarkdown` from the shared content-script utilities. -/
def cleanMarkdown (s : String) : String :=
  .mk (dropTrailNl (dropLeadNl (collapseNl s.data)))

/-- Whether a character list contains three consecutive newlines. -/
def hasTripleNl : List Char → Bool
  | a :: b :: c :: rest => (a = '\n' && b = '\n' && c = '\n') || hasTripleNl (b :: c :: rest)
  | _ => false

/-! ## The DOM model -/

/-- A document node: either a text node or an element with a tag, an
attribute list and ordered children. -/
inductive DomNode where
  | text (s : String)
  | elem (tag : String) (attrs : List (String × String)) (children : List DomNode)

def childNodesOf : DomNode → List DomNode
  | .text _ => []
  | .elem _ _ kids => kids

def tagOf : DomNode → String
  | .text _ => ""
  | .elem t _ _ => t

def attrsOf : DomNode → List (String × String)
  | .text _ => []
  | .elem _ a _ => a

/-- `getAttribute`: `none` models the DOM's `null` for an absent attribute. -/
def getAttribute (attrs : List (String × String)) (name : String) : Option String :=
  (attrs.find? (fun a => a.1 = name)).map (fun a => a.2)

mutual

def nodeSize : DomNode → Nat
  | .text _ => 1
  | .elem _ _ kids => 1 + listSize kids

def listSize : List DomNode → Nat
  | [] => 0
  | n :: rest => 1 + nodeSize n + listSize rest

end

mutual

/-- `textContent` of a node: concatenation of all descendant text. -/
def textContent : DomNode → String
  | .text s => s
  | .elem _ _ kids => textContentList kids

def textContentList : List DomNode → String
  | [] => ""
  | n :: rest => textContent n ++ textContentList rest

end

mutual

/-- `querySelector('code')` over a child list: first descendant element
with tag `code` in document (pre)order. -/
def qsCode : List DomNode → Option DomNode
  | [] => none
  | n :: rest =>
    match qsCodeNode n with
    | some m => some m
    | none => qsCode rest

def qsCodeNode : DomNode → Option DomNode
  | .text _ => none
  | .elem tag attrs kids =>
    if tag = "code" then some (.elem tag attrs kids) else qsCode kids

end

mutual

/-- `querySelectorAll` over a child list for a tag predicate: all matching
descendant elements in document (pre)order. -/
def qsaPred (p : String → Bool) : List DomNode → List DomNode
  | [] => []
  | n :: rest => qsaPredNode p n ++ qsaPred p rest

def qsaPredNode (p : String → Bool) : DomNode → List DomNode
  | .text _ => []
  | .elem tag attrs kids =>
    (if p tag then [DomNode.elem tag attrs kids] else []) ++ qsaPred p kids

end

/-! ## `extractCodeLanguage` and the sanitizer's language-class match -/

/-- First match of `/language-(\w+)/`, returning the captured word run. -/
def findLangWord : List Char → Option String
  | [] => none
  | c :: cs =>
    match dropPat "language-".data (c :: cs) with
    | some rest =>
      let run := rest.takeWhile isWordChar
      if run.isEmpty then findLangWord cs else some (.mk run)
    | none => findLangWord cs

/-- `extractCodeLanguage` from the shared utilities: the `language-` word
of a `class` string, defaulting to the empty string. -/
def extractCodeLanguage (className : String) : String :=
  match findLangWord className.data with
  | some l => l
  | none => ""

/-- First match of `/language-\S+/` (full match), as used by the
sanitizer on `code` elements. -/
def findLangToken : List Char → Option String
  | [] => none
  | c :: cs =>
    match dropPat "language-".data (c :: cs) with
    | some rest =>
      let run := rest.takeWhile (fun d => !isWS d)
      if run.isEmpty then findLangToken cs else some (.mk ("language-".data ++ run))
    | none => findLangToken cs

/-! ## The extractor

`extractTextContent` and its list helpers from the shared content-script
utilities.  The extraction context is `{inline, indent}`; a JavaScript
call with a partial context object is translated with the source's
defaults (`inline` falsy, `indent` 0). -/

structure Ctx where
  inline : Bool
  indent : Nat

def defaultCtx : Ctx := { inline := false, indent := 0 }

def isLiElem : DomNode → Bool
  | .elem t _ _ => t = "li"
  | .text _ => false

/-- `/^h[1-6]$/`. -/
def isHeadingTagName (tag : String) : Bool :=
  match tag.data with
  | ['h', d] => '1' ≤ d && d ≤ '6'
  | _ => false

/-- `parseInt(tag[1])` for a heading tag. -/
def headingLevelOf (tag : String) : Nat :=
  match tag.data with
  | [_, d] => d.toNat - '0'.toNat
  | _ => 0

/-- `'#'.repeat(level)`. -/
def hashes (level : Nat) : String := .mk (List.replicate level '#')

/-- `extractTableContent` row loop: one `| … |` line per `tr`, with a
`---` separator after the first row. -/
def tableRowsMd : List DomNode → Nat → String
  | [], _ => ""
  | row :: rest, i =>
    let cellTexts :=
      (qsaPred (fun t => t = "th" || t = "td") (childNodesOf row)).map
        (fun c => jsTrim (textContent c))
    let line := "| " ++ joinSep " | " cellTexts ++ " |\n"
    let sep :=
      if i = 0 then "| " ++ joinSep " | " (cellTexts.map (fun _ => "---")) ++ " |\n" else ""
    line ++ sep ++ tableRowsMd rest (i + 1)

/-- `extractTableContent` from the shared utilities. -/
def extractTableContent (table : DomNode) : String :=
  let rows := qsaPred (fun t => t = "tr") (childNodesOf table)
  if rows.isEmpty then "" else tableRowsMd rows 0

mutual

/-- `extractTextContent(element, ctx)` body (after the null guard): walk
the children, then apply `cleanMarkdown` in block mode. -/
def extractTextContentF : Nat → DomNode → Ctx → String
  | 0, _, _ => ""
  | fuel + 1, element, ctx =>
    let result := extractLoopF fuel (childNodesOf element) ctx ""
    if ctx.inline then result else cleanMarkdown result
termination_by structural fuel _ _ => fuel

/-- The `for (const child of children)` accumulation loop. -/
def extractLoopF : Nat → List DomNode → Ctx → String → String
  | 0, _, _, acc => acc
  | _ + 1, [], _, acc => acc
  | fuel + 1, child :: rest, ctx, acc =>
    extractLoopF fuel rest ctx (extractNodeF fuel child ctx acc)
termination_by structural fuel _ _ _ => fuel

/-- One iteration of the extraction loop: the per-tag policy, evaluated
top to bottom exactly as in the source. -/
def extractNodeF : Nat → DomNode → Ctx → String → String
  | 0, _, _, acc => acc
  | _ + 1, .text s, _, acc => acc ++ s
  | fuel + 1, .elem tag attrs kids, ctx, acc =>
    let child := DomNode.elem tag attrs kids
    if tag = "svg" || tag = "button" || tag = "nav" || tag = "style" || tag = "script" then
      acc
    else if tag = "pre" then
      let codeEl := (qsCode kids).getD child
      let lang := extractCodeLanguage ((getAttribute (attrsOf codeEl) "class").getD "")
      let codeText := textContent codeEl
      acc ++ "\n```" ++ lang ++ "\n" ++ jsTrim codeText ++ "\n```\n"
    else if tag = "code" then
      acc ++ "`" ++ textContent child ++ "`"
    else if tag = "br" then
      acc ++ (if ctx.inline then " " else "\n")
    else if tag = "p" then
      if ctx.inline then
        let inner := extractTextContentF fuel child { inline := true, indent := ctx.indent }
        (if acc.data.length > 0 && !(acc.data.getLast? = some ' ') then acc ++ " " else acc) ++ inner
      else
        acc ++ "\n" ++ extractTextContentF fuel child { inline := false, indent := ctx.indent } ++ "\n"
    else if tag = "div" then
      if ctx.inline then
        acc ++ extractTextContentF fuel child { inline := true, indent := ctx.indent }
      else
        acc ++ extractTextContentF fuel child { inline := false, indent := ctx.indent }
    else if tag = "ul" || tag = "ol" then
      acc ++ processListElementF fuel child ctx.indent
    else if tag = "li" then
      acc ++ processListItemF fuel child ctx.indent "-"
    else if tag = "strong" || tag = "b" then
      acc ++ "**" ++ extractTextContentF fuel child ctx ++ "**"
    else if tag = "em" || tag = "i" then
      acc ++ "*" ++ extractTextContentF fuel child ctx ++ "*"
    else if isHeadingTagName tag then
      let level := headingLevelOf tag
      let text := jsTrim (extractTextContentF fuel child { inline := true, indent := 0 })
      acc ++ "\n\n" ++ hashes level ++ " " ++ text ++ "\n\n"
    else if tag = "a" then
      let href := (getAttribute attrs "href").getD ""
      let text := extractTextContentF fuel child ctx
      if href ≠ "" && !(jsStartsWith href "javascript:") then
        acc ++ "[" ++ text ++ "](" ++ href ++ ")"
      else
        acc ++ text
    else if tag = "blockquote" then
      let inner := jsTrim (extractTextContentF fuel child { inline := false, indent := 0 })
      acc ++ "\n" ++ joinNl ((splitLines inner).map (fun l => "> " ++ l)) ++ "\n"
    else if tag = "table" then
      acc ++ "\n" ++ extractTableContent child ++ "\n"
    else if tag = "img" then
      let altRaw := (getAttribute attrs "alt").getD ""
      let alt := if altRaw = "" then "image" else altRaw
      let src := (getAttribute attrs "src").getD ""
      acc ++ "![" ++ alt ++ "](" ++ src ++ ")"
    else if tag = "hr" then
      acc ++ "\n\n---\n\n"
    else
      acc ++ extractTextContentF fuel child ctx
termination_by structural fuel _ _ _ => fuel

/-- `processListElement`: `"\n"` then the items (direct `li` children). -/
def processListElementF : Nat → DomNode → Nat → String
  | 0, _, _ => ""
  | fuel + 1, listEl, indent =>
    let isOrdered := tagOf listEl = "ol"
    "\n" ++ processItemsF fuel (childNodesOf listEl) isOrdered indent 0
termination_by structural fuel _ _ => fuel

/-- The `items.forEach((item, i) => …)` loop of `processListElement`,
restricted to direct `li` element children (`:scope > li`). -/
def processItemsF : Nat → List DomNode → Bool → Nat → Nat → String
  | 0, _, _, _, _ => ""
  | _ + 1, [], _, _, _ => ""
  | fuel + 1, n :: rest, isOrdered, indent, i =>
    if isLiElem n then
      let marker := if isOrdered then toString (i + 1) ++ "." else "-"
      processListItemF fuel n indent marker ++ processItemsF fuel rest isOrdered indent (i + 1)
    else
      processItemsF fuel rest isOrdered indent i
termination_by structural fuel _ _ _ _ => fuel

/-- `processListItem`: inline text of the item plus nested sub-lists with
increased indent. -/
def processListItemF : Nat → DomNode → Nat → String → String
  | 0, _, _, _ => ""
  | fuel + 1, li, indent, marker =>
    let pfx := String.mk (List.replicate (2 * indent) ' ')
    let pair := liChildrenF fuel (childNodesOf li) indent
    pfx ++ marker ++ " " ++ jsTrim pair.1 ++ "\n" ++ pair.2
termination_by structural fuel _ _ _ => fuel

/-- The child loop of `processListItem`: nested `ul`/`ol` children feed
`nestedLists`; everything else feeds `textParts` via inline extraction. -/
def liChildrenF : Nat → List DomNode → Nat → String × String
  | 0, _, _ => ("", "")
  | _ + 1, [], _ => ("", "")
  | fuel + 1, child :: rest, indent =>
    let pair := liChildrenF fuel rest indent
    match child with
    | .elem tag _ _ =>
      if tag = "ul" || tag = "ol" then
        (pair.1, processListElementF fuel child (indent + 1) ++ pair.2)
      else
        (extractTextContentF fuel child { inline := true, indent := indent } ++ pair.1, pair.2)
    | .text _ =>
      (extractTextContentF fuel child { inline := true, indent := indent } ++ pair.1, pair.2)
termination_by structural fuel _ _ => fuel

end

/-- Fuel bound for an extraction entry: comfortably larger than the depth
of any call chain over the tree. -/
def extractFuel (n : DomNode) : Nat := 4 * nodeSize n + 8

/-- The exported `extractTextContent(element, ctx)`, including the
`if (!element) return ''` null guard: `none` models a null/undefined
root. -/
def extractTextContentJS (element : Option DomNode) (ctx : Ctx) : String :=
  match element with
  | none => ""
  | some el => extractTextContentF (extractFuel el) el ctx

/-- `extractTextContent(element)` with the context omitted (the usual
entry from `getMessageContent`): `inline` falsy, `indent` 0. -/
def extractTextContent (element : DomNode) : String :=
  extractTextContentJS (some element) defaultCtx

/-! ## The sanitizer

`sanitizeHTML` from the ChatGPT content script, modelled on the parsed
fragment.  The `cleanNode` loop iterates a snapshot
(`Array.from(node.childNodes)`): when a disallowed element is unwrapped,
its children are hoisted into the parent but are not themselves visited,
which the pure translation reproduces below. -/

def ALLOWED_TAGS : List String :=
  ["p", "br", "strong", "b", "em", "i", "u", "a",
   "h1", "h2", "h3", "h4", "h5", "h6",
   "ul", "ol", "li",
   "pre", "code", "blockquote",
   "table", "thead", "tbody", "tr", "th", "td",
   "hr", "img", "span", "div", "sup", "sub"]

def ALLOWED_ATTRS : List String := ["href", "src", "alt", "class", "target", "rel"]

/-- Attribute handling of `cleanNode` for one allowed element: strip
attributes outside the allow-list, then keep only a `language-` class on
`code` elements and remove `class` from every other element. -/
def sanitizeAttrs (tag : String) (attrs : List (String × String)) : List (String × String) :=
  let kept := attrs.filter (fun a => ALLOWED_ATTRS.contains a.1)
  if tag = "code" then
    match findLangToken ((getAttribute kept "class").getD "").data with
    | some l => kept.map (fun a => if a.1 = "class" then ("class", l) else a)
    | none => kept.filter (fun a => a.1 ≠ "class")
  else
    kept.filter (fun a => a.1 ≠ "class")

/-- The `cleanNode` loop over a snapshot of the child list.  A disallowed
element is replaced by its children verbatim (they are not in the
snapshot, so they are not cleaned); an allowed element keeps its filtered
attributes and is cleaned recursively. -/
def sanitizeChildrenF : Nat → List DomNode → List DomNode
  | 0, ns => ns
  | _ + 1, [] => []
  | fuel + 1, n :: rest =>
    match n with
    | .text s => .text s :: sanitizeChildrenF fuel rest
    | .elem tag attrs kids =>
      if ALLOWED_TAGS.contains tag then
        .elem tag (sanitizeAttrs tag attrs) (sanitizeChildrenF fuel kids)
          :: sanitizeChildrenF fuel rest
      else
        kids ++ sanitizeChildrenF fuel rest

def sanitizeChildren (ns : List DomNode) : List DomNode :=
  sanitizeChildrenF (2 * listSize ns + 2) ns

/-! ### HTML serialization (`innerHTML` read-back) -/

/-- Text escaping performed by `innerHTML` serialization and by the
viewer's `escapeHtml` (a `div` round-trip): `&`, `<`, `>` and no-break
space. -/
def escChar (c : Char) : List Char :=
  if c = '&' then "&amp;".data
  else if c = '<' then "&lt;".data
  else if c = '>' then "&gt;".data
  else if c = Char.ofNat 160 then "&nbsp;".data
  else [c]

def escList : List Char → List Char
  | [] => []
  | c :: cs => escChar c ++ escList cs

/-- `escapeHtml` from the viewer (implemented there via a detached `div`'s
`textContent`/`innerHTML` round-trip). -/
def escapeHtml (s : String) : String := .mk (escList s.data)

def escAttrChar (c : Char) : List Char :=
  if c = '&' then "&amp;".data
  else if c = '"' then "&quot;".data
  else if c = Char.ofNat 160 then "&nbsp;".data
  else [c]

def escAttrList : List Char → List Char
  | [] => []
  | c :: cs => escAttrChar c ++ escAttrList cs

def escAttr (s : String) : String := .mk (escAttrList s.data)

def voidTags : List String :=
  ["area", "base", "br", "col", "embed", "hr", "img", "input", "link",
   "meta", "param", "source", "track", "wbr"]

mutual

def serializeNode : DomNode → String
  | .text s => escapeHtml s
  | .elem tag attrs kids =>
    let attrStr := concatAll (attrs.map (fun a => " " ++ a.1 ++ "=\"" ++ escAttr a.2 ++ "\""))
    if voidTags.contains tag then
      "<" ++ tag ++ attrStr ++ ">"
    else
      "<" ++ tag ++ attrStr ++ ">" ++ serializeList kids ++ "</" ++ tag ++ ">"

def serializeList : List DomNode → String
  | [] => ""
  | n :: rest => serializeNode n ++ serializeList rest

end

/-- `sanitizeHTML` on the DOM fragment denoted by its `rawHtml` argument:
clean the children of the temporary container, then read back
`innerHTML` and trim. -/
def sanitizeHTML (fragment : List DomNode) : String :=
  jsTrim (serializeList (sanitizeChildren fragment))

/-! ## The renderer

`renderMarkdown` and its helpers from the viewer. -/

def cbToken (idx : Nat) : String := "\x00CB_" ++ toString idx ++ "\x00"

def icToken (idx : Nat) : String := "\x00IC_" ++ toString idx ++ "\x00"

/-- Split a character list at the first occurrence of three backticks. -/
def splitAtTriple : List Char → Option (List Char × List Char)
  | a :: b :: c :: rest =>
    if a = '`' && b = '`' && c = '`' then some ([], rest)
    else
      match splitAtTriple (b :: c :: rest) with
      | some (x, y) => some (a :: x, y)
      | none => none
  | _ => none

/-- Try to match `/```(\w*)\n([\s\S]*?)```/` at the current position:
returns the language, the (lazy) body and the remainder. -/
def tryFence (s : List Char) : Option (String × String × List Char) :=
  match s with
  | '`' :: '`' :: '`' :: rest =>
    let lang := rest.takeWhile isWordChar
    match rest.drop lang.length with
    | '\n' :: body0 =>
      match splitAtTriple body0 with
      | some (body, after) => some (.mk lang, .mk body, after)
      | none => none
    | _ => none
  | _ => none

/-- The fenced-code global replace: each match becomes a `\x00CB_i\x00`
placeholder and pushes `{language: lang || 'plaintext', code: trimEnd}`. -/
def fenceScanF : Nat → List Char → Nat → List Char × List (String × String)
  | 0, s, _ => (s, [])
  | _ + 1, [], _ => ([], [])
  | fuel + 1, c :: cs, k =>
    if c = '`' then
      match tryFence (c :: cs) with
      | some (lang, body, after) =>
        let pr := fenceScanF fuel after (k + 1)
        ((cbToken k).data ++ pr.1,
         (if lang = "" then "plaintext" else lang, jsTrimEnd body) :: pr.2)
      | none =>
        let pr := fenceScanF fuel cs k
        (c :: pr.1, pr.2)
    else
      let pr := fenceScanF fuel cs k
      (c :: pr.1, pr.2)

def extractFenced (raw : String) : String × List (String × String) :=
  let pr := fenceScanF (raw.data.length + 1) raw.data 0
  (.mk pr.1, pr.2)

/-- Try to match `/`([^`\n]+)`/` at the current position. -/
def tryInlineCode (s : List Char) : Option (String × List Char) :=
  match s with
  | '`' :: rest =>
    let run := rest.takeWhile (fun c => c ≠ '`' && c ≠ '\n')
    if run.isEmpty then none
    else
      match rest.drop run.length with
      | '`' :: after => some (.mk run, after)
      | _ => none
  | _ => none

/-- The inline-code global replace: each match becomes `\x00IC_i\x00`. -/
def icScanF : Nat → List Char → Nat → List Char × List String
  | 0, s, _ => (s, [])
  | _ + 1, [], _ => ([], [])
  | fuel + 1, c :: cs, k =>
    if c = '`' then
      match tryInlineCode (c :: cs) with
      | some (code, after) =>
        let pr := icScanF fuel after (k + 1)
        ((icToken k).data ++ pr.1, code :: pr.2)
      | none =>
        let pr := icScanF fuel cs k
        (c :: pr.1, pr.2)
    else
      let pr := icScanF fuel cs k
      (c :: pr.1, pr.2)

def extractInlineCode (s : String) : String × List String :=
  let pr := icScanF (s.data.length + 1) s.data 0
  (.mk pr.1, pr.2)

/-! ### Inline formatting -/

/-- Try to match `/\x00IC_(\d+)\x00/` at the current position. -/
def tryICRef (s : List Char) : Option (Nat × List Char) :=
  match s with
  | '\x00' :: rest =>
    match dropPat "IC_".data rest with
    | some r2 =>
      let ds := r2.takeWhile Char.isDigit
      if ds.isEmpty then none
      else
        match r2.drop ds.length with
        | '\x00' :: after => some (natOfDigits ds, after)
        | _ => none
    | none => none
  | _ => none

/-- Restore inline-code placeholders as `<code>` elements with escaped
contents.  An out-of-range index models the source's
`escapeHtml(undefined)`, which renders the string `undefined`. -/
def icRestoreF : Nat → List Char → List String → List Char
  | 0, s, _ => s
  | _ + 1, [], _ => []
  | fuel + 1, c :: cs, codes =>
    if c = '\x00' then
      match tryICRef (c :: cs) with
      | some (idx, after) =>
        let inner :=
          match codes.get? idx with
          | some cd => (escapeHtml cd).data
          | none => "undefined".data
        "<code>".data ++ inner ++ "</code>".data ++ icRestoreF fuel after codes
      | none => c :: icRestoreF fuel cs codes
    else c :: icRestoreF fuel cs codes

/-- The lazy body of `/\*\*(.+?)\*\*/`: shortest nonempty newline-free
span followed by `**`. -/
def boldClose : List Char → Option (List Char × List Char)
  | [] => none
  | c :: cs =>
    if c = '\n' then none
    else
      match cs with
      | '*' :: '*' :: t => some ([c], t)
      | _ =>
        match boldClose cs with
        | some (b, a) => some (c :: b, a)
        | none => none

/-- `replace(/\*\*(.+?)\*\*/g, '<strong>$1</strong>')`. -/
def boldF : Nat → List Char → List Char
  | 0, s => s
  | _ + 1, [] => []
  | fuel + 1, '*' :: '*' :: rest =>
    (match boldClose rest with
     | some (body, after) =>
       "<strong>".data ++ body ++ "</strong>".data ++ boldF fuel after
     | none => '*' :: boldF fuel ('*' :: rest))
  | fuel + 1, c :: cs => c :: boldF fuel cs

/-- The body of `/(?<!\*)\*([^*]+?)\*(?!\*)/` after the opening `*`:
a nonempty star-free span, a closing `*`, and a negative lookahead. -/
def italicClose (s : List Char) : Option (List Char × List Char) :=
  let body := s.takeWhile (fun c => c ≠ '*')
  if body.isEmpty then none
  else
    match s.drop body.length with
    | '*' :: rest => if rest.head? = some '*' then none else some (body, rest)
    | _ => none

/-- `replace(/(?<!\*)\*([^*]+?)\*(?!\*)/g, '<em>$1</em>')`; `prev` tracks
the previous character of the scanned string for the lookbehind. -/
def italicF : Nat → Option Char → List Char → List Char
  | 0, _, s => s
  | _ + 1, _, [] => []
  | fuel + 1, prev, c :: cs =>
    if c = '*' && !(prev = some '*') then
      match italicClose cs with
      | some (body, after) =>
        "<em>".data ++ body ++ "</em>".data ++ italicF fuel (some '*') after
      | none => c :: italicF fuel (some c) cs
    else c :: italicF fuel (some c) cs

/-- Try to match `/\[([^\]]+)\]\(([^)]+)\)/` at the current position. -/
def tryLink (s : List Char) : Option (List Char × List Char × List Char) :=
  match s with
  | '[' :: rest =>
    let txt := rest.takeWhile (fun c => c ≠ ']')
    if txt.isEmpty then none
    else
      match rest.drop txt.length with
      | ']' :: '(' :: r2 =>
        let url := r2.takeWhile (fun c => c ≠ ')')
        if url.isEmpty then none
        else
          match r2.drop url.length with
          | ')' :: after => some (txt, url, after)
          | _ => none
      | _ => none
  | _ => none

/-- `replace(/\[([^\]]+)\]\(([^)]+)\)/g, '<a href="$2" target="_blank" rel="noopener">$1</a>')`. -/
def linkF : Nat → List Char → List Char
  | 0, s => s
  | _ + 1, [] => []
  | fuel + 1, c :: cs =>
    if c = '[' then
      match tryLink (c :: cs) with
      | some (txt, url, after) =>
        "<a href=\"".data ++ url ++ "\" target=\"_blank\" rel=\"noopener\">".data
          ++ txt ++ "</a>".data ++ linkF fuel after
      | none => c :: linkF fuel cs
    else c :: linkF fuel cs

/-- `replace(/&lt;br&gt;/g, '<br>')`. -/
def brRestoreF : Nat → List Char → List Char
  | 0, s => s
  | _ + 1, [] => []
  | fuel + 1, c :: cs =>
    match dropPat "&lt;br&gt;".data (c :: cs) with
    | some after => "<br>".data ++ brRestoreF fuel after
    | none => c :: brRestoreF fuel cs

/-- `inlineFormat(text, inlineCodes)`: escape, restore inline code, bold,
italic, links (the arrow replacement in the source maps `→` to itself and
is the identity), restore `<br>`. -/
def inlineFormat (text : String) (inlineCodes : List String) : String :=
  let h0 := (escapeHtml text).data
  let h1 := icRestoreF (h0.length + 1) h0 inlineCodes
  let h2 := boldF (h1.length + 1) h1
  let h3 := italicF (h2.length + 1) none h2
  let h4 := linkF (h3.length + 1) h3
  .mk (brRestoreF (h4.length + 1) h4)

/-! ### Block-level parsing -/

/-- `getIndent`: length of the leading-whitespace match `/^(\s*)/`. -/
def getIndent (line : String) : Nat := (line.data.takeWhile isWS).length

/-- `/^(\s*)[-*]\s+/`. -/
def isBulletLine (l : List Char) : Bool :=
  match l.dropWhile isWS with
  | c :: d :: _ => (c = '-' || c = '*') && isWS d
  | _ => false

/-- `/^(\s*)\d+\.\s+/`. -/
def isOrderedLinePat (l : List Char) : Bool :=
  let rest := l.dropWhile isWS
  let ds := rest.takeWhile Char.isDigit
  !ds.isEmpty &&
    (match rest.drop ds.length with
     | '.' :: c :: _ => isWS c
     | _ => false)

/-- `isListLine` from the viewer. -/
def isListLine (line : String) : Bool :=
  isBulletLine line.data || isOrderedLinePat line.data

/-- `replace(/^\s*[-*]\s+/, '')`. -/
def stripBullet (l : List Char) : List Char :=
  if isBulletLine l then ((l.dropWhile isWS).drop 1).dropWhile isWS else l

/-- `replace(/^\s*\d+\.\s+/, '')`. -/
def stripOrdered (l : List Char) : List Char :=
  if isOrderedLinePat l then
    let r1 := l.dropWhile isWS
    (((r1.drop (r1.takeWhile Char.isDigit).length).drop 1).dropWhile isWS)
  else l

/-- The item-text computation of `buildListHTML`: the bullet replace
followed by the ordered replace. -/
def stripListMarker (line : String) : String := .mk (stripOrdered (stripBullet line.data))

/-- The heading tag choice of the renderer:
`lvl === 1 ? 'h2' : lvl <= 3 ? 'h3' : 'h4'`. -/
def headingTag (lvl : Nat) : String :=
  if lvl = 1 then "h2" else if lvl ≤ 3 then "h3" else "h4"

/-- Match `/^(#{1,4})\s+(.+)$/`: level and content.  When everything
after the hashes is whitespace, backtracking leaves the last whitespace
character to the `(.+)` group. -/
def parseHeading (line : String) : Option (Nat × String) :=
  let l := line.data
  let h := (l.takeWhile (fun c => c = '#')).length
  if 1 ≤ h && h ≤ 4 then
    let rest := l.drop h
    let w := (rest.takeWhile isWS).length
    if w = 0 then none
    else if w < rest.length then some (h, .mk (rest.drop w))
    else if 2 ≤ w then some (h, .mk (rest.drop (w - 1)))
    else none
  else none

/-- `/^#{1,4}\s/` (the paragraph-break test, weaker than `parseHeading`). -/
def isHeadingish (line : String) : Bool :=
  let h := (line.data.takeWhile (fun c => c = '#')).length
  1 ≤ h && h ≤ 4 &&
    (match line.data.drop h with
     | c :: _ => isWS c
     | [] => false)

/-- `/^---+$/` on the trimmed line. -/
def isHrLine (line : String) : Bool :=
  let t := trimTrailWS (trimLeadWS line.data)
  t.length ≥ 3 && t.all (fun c => c = '-')

/-- `line.startsWith('> ')`. -/
def isQuoteLine (line : String) : Bool :=
  match line.data with
  | '>' :: ' ' :: _ => true
  | _ => false

/-- Match `/^\x00CB_(\d+)\x00$/` (the whole line is a code-block
placeholder). -/
def parseCBLine (line : String) : Option Nat :=
  match line.data with
  | '\x00' :: rest =>
    match dropPat "CB_".data rest with
    | some r2 =>
      let ds := r2.takeWhile Char.isDigit
      if ds.isEmpty then none
      else
        match r2.drop ds.length with
        | ['\x00'] => some (natOfDigits ds)
        | _ => none
    | none => none
  | _ => none

/-- The paragraph loop's break test (blank, heading-ish, list, quote,
rule, or code placeholder). -/
def isParaBreak (line : String) : Bool :=
  trimTrailWS (trimLeadWS line.data) = [] || isHeadingish line || isListLine line
    || isQuoteLine line || isHrLine line || (parseCBLine line).isSome

/-- The code-block HTML emitted for a placeholder line. -/
def codeBlockHtml (language code : String) : String :=
  "<div class=\"code-block\"><div class=\"code-block-header\"><span class=\"code-lang\">"
    ++ language
    ++ "</span><button class=\"code-copy-btn\">Copy code</button></div><pre><code class=\"language-"
    ++ language ++ "\">" ++ escapeHtml code ++ "</code></pre></div>"

/-! ### Nested-list construction -/

def maxIndentOf (lines : List String) : Nat :=
  lines.foldr (fun l m => max (getIndent l) m) 0

mutual

/-- `buildListHTML(listLines, fromIndex, inlineCodes)`: open the list tag
determined by the first line, run the item loop, close the tag. -/
def buildListF : Nat → List String → List String → Nat → String × Nat
  | 0, _, _, i => ("", i)
  | fuel + 1, listLines, codes, fromIndex =>
    if fromIndex ≥ listLines.length then ("", fromIndex)
    else
      let first := listLines.getD fromIndex ""
      let tag := if isOrderedLinePat first.data then "ol" else "ul"
      let pr := buildLoopF fuel listLines codes (getIndent first) fromIndex
      ("<" ++ tag ++ ">" ++ pr.1 ++ "</" ++ tag ++ ">", pr.2)

/-- The `while (i < listLines.length)` loop of `buildListHTML`: a
shallower line stops the loop; an equal-indent line is a sibling item
(with an optional nested list from the next, deeper line); a deeper line
without a preceding sibling is permissively treated as a nested list. -/
def buildLoopF : Nat → List String → List String → Nat → Nat → String × Nat
  | 0, _, _, _, i => ("", i)
  | fuel + 1, listLines, codes, baseIndent, i =>
    if i < listLines.length then
      let line := listLines.getD i ""
      let ind := getIndent line
      if ind < baseIndent then ("", i)
      else if ind = baseIndent then
        let item := "<li>" ++ inlineFormat (stripListMarker line) codes
        if i + 1 < listLines.length && getIndent (listLines.getD (i + 1) "") > baseIndent then
          let nested := buildListF fuel listLines codes (i + 1)
          let rest := buildLoopF fuel listLines codes baseIndent nested.2
          (item ++ nested.1 ++ "</li>" ++ rest.1, rest.2)
        else
          let rest := buildLoopF fuel listLines codes baseIndent (i + 1)
          (item ++ "</li>" ++ rest.1, rest.2)
      else
        let nested := buildListF fuel listLines codes i
        let rest := buildLoopF fuel listLines codes baseIndent nested.2
        (nested.1 ++ rest.1, rest.2)
    else ("", i)

end

/-- Fuel bound for the list builder; proven sufficient by the progress
lemmas (claim C9). -/
def buildFuel (listLines : List String) : Nat :=
  (listLines.length + 1) * (2 * maxIndentOf listLines + 4)

def buildListHTML (listLines : List String) (codes : List String) (fromIndex : Nat) :
    String × Nat :=
  buildListF (buildFuel listLines) listLines codes fromIndex

/-- `parseList`: collect the contiguous run of list lines from the
current position and build nested-list HTML from it. -/
def parseList (ls : List String) (codes : List String) : String :=
  (buildListHTML (ls.takeWhile isListLine) codes 0).1

/-! ### The block loop -/

/-- The `while (i < lines.length)` block loop of `renderMarkdown`.
`none` models the two ways the source leaves this loop abnormally: the
paragraph branch consuming nothing (an infinite loop in the source) and a
placeholder index outside the table (a thrown `TypeError`). -/
def renderBlocksF : Nat → List String → List (String × String) → List String →
    Option (List String)
  | 0, _, _, _ => none
  | _ + 1, [], _, _ => some []
  | fuel + 1, line :: rest, codeBlocks, inlineCodes =>
    match parseCBLine line with
    | some idx =>
      match codeBlocks.get? idx with
      | some cb =>
        (renderBlocksF fuel rest codeBlocks inlineCodes).map
          (fun bs => codeBlockHtml cb.1 cb.2 :: bs)
      | none => none
    | none =>
      match parseHeading line with
      | some lc =>
        let tag := headingTag lc.1
        (renderBlocksF fuel rest codeBlocks inlineCodes).map
          (fun bs => ("<" ++ tag ++ ">" ++ inlineFormat lc.2 inlineCodes ++ "</" ++ tag ++ ">") :: bs)
      | none =>
        if isHrLine line then
          (renderBlocksF fuel rest codeBlocks inlineCodes).map (fun bs => "<hr>" :: bs)
        else if isQuoteLine line then
          let qLines := ((line :: rest).takeWhile isQuoteLine).map (fun l => String.mk (l.data.drop 2))
          let after := (line :: rest).dropWhile isQuoteLine
          (renderBlocksF fuel after codeBlocks inlineCodes).map
            (fun bs => ("<blockquote>" ++ inlineFormat (joinSep "<br>" qLines) inlineCodes
              ++ "</blockquote>") :: bs)
        else if isListLine line then
          let after := (line :: rest).dropWhile isListLine
          (renderBlocksF fuel after codeBlocks inlineCodes).map
            (fun bs => parseList (line :: rest) inlineCodes :: bs)
        else if trimTrailWS (trimLeadWS line.data) = [] then
          renderBlocksF fuel rest codeBlocks inlineCodes
        else
          let paraRun := (line :: rest).takeWhile (fun l => !isParaBreak l)
          let after := (line :: rest).dropWhile (fun l => !isParaBreak l)
          if paraRun.isEmpty then none
          else
            (renderBlocksF fuel after codeBlocks inlineCodes).map
              (fun bs => ("<p>" ++ inlineFormat (joinSep "<br>" paraRun) inlineCodes ++ "</p>") :: bs)

/-- `renderMarkdown(raw)`: fence extraction, inline-code extraction,
block parsing, newline-joined blocks.  `some html` is normal return;
`none` is the abnormal-exit model described at `renderBlocksF`. -/
def renderMarkdown (raw : String) : Option String :=
  let f := extractFenced raw
  let ic := extractInlineCode f.1
  let lines := splitLines ic.1
  (renderBlocksF (lines.length + 1) lines f.2 ic.2).map joinNl

/-! ## The storage merge (`saveConversation`) -/

structure ChatMessage where
  role : String
  content : String
  contentHtml : String
  index : Nat

/-- A stored conversation record.  The empty string models a
missing/undefined optional field (both are falsy to the source's `||`
fallbacks). -/
structure Conversation where
  id : String
  source : String
  title : String
  url : String
  messages : List ChatMessage
  savedAt : String
  updatedAt : String

/-- `store.get(conversation.id)`. -/
def findConv (store : List Conversation) (cid : String) : Option Conversation :=
  store.find? (fun r => r.id = cid)

/-- `store.put(record)` for a store keyed on `id`: replace or insert. -/
def putConv (store : List Conversation) (record : Conversation) : List Conversation :=
  match store with
  | [] => [record]
  | r :: rest => if r.id = record.id then record :: rest else r :: putConv rest record

/-- `saveConversation(conversation)` from the storage layer, with the
store and the current time made explicit.  Returns the record written
(`toSave`, which the source resolves) and the updated store. -/
def saveConversation (store : List Conversation) (conversation : Conversation)
    (now : String) : Conversation × List Conversation :=
  match findConv store conversation.id with
  | some existing =>
    let toSave : Conversation :=
      { existing with
        title := if conversation.title = "" then existing.title else conversation.title
        messages := conversation.messages
        updatedAt := now
        url := if conversation.url = "" then existing.url else conversation.url }
    (toSave, putConv store toSave)
  | none =>
    let toSave : Conversation :=
      { conversation with
        savedAt := if conversation.savedAt = "" then now else conversation.savedAt
        updatedAt := now }
    (toSave, putConv store toSave)


/-! ## Concrete inputs used by the claim theorems -/

/-- An unordered list with one item whose children are an inline
paragraph and a nested ordered list of two items (claim C1), inside a
container root as extraction receives it. -/
def nestedListTree : DomNode :=
  .elem "div" []
    [.elem "ul" []
      [.elem "li" []
        [.elem "p" [] [.text "Item"],
         .elem "ol" []
           [.elem "li" [] [.elem "p" [] [.text "A"]],
            .elem "li" [] [.elem "p" [] [.text "B"]]]]]]

/-- A stored record used by the C10 witness. -/
def wsExisting : Conversation :=
  { id := "chatgpt_abc", source := "chatgpt", title := "Old title",
    url := "https://old.example", messages := [⟨"user", "hi", "", 0⟩],
    savedAt := "2026-01-01T00:00:00Z", updatedAt := "2026-01-02T00:00:00Z" }

/-- An incoming scrape for the same id, with no title of its own and no
timestamps (claim C10 witness). -/
def wsIncoming : Conversation :=
  { id := "chatgpt_abc", source := "chatgpt", title := "",
    url := "https://new.example",
    messages := [⟨"user", "hi", "", 0⟩, ⟨"assistant", "hello", "", 1⟩],
    savedAt := "", updatedAt := "" }

/-- An incoming scrape for an id not yet stored (claim C10 witness). -/
def wsFresh : Conversation :=
  { id := "chatgpt_new", source := "chatgpt", title := "Fresh",
    url := "https://fresh.example", messages := [⟨"user", "q", "", 0⟩],
    savedAt := "", updatedAt := "" }

/-! # Theorems

Helper lemmas first, then one theorem per claim (with witnesses where a
claim theorem carries a hypothesis). -/

/-! ## `cleanMarkdown` lemmas (claim C5) -/

theorem hasTripleNl_cons_false (c : Char) (t : List Char) (hc : ¬ c = '\n') :
    hasTripleNl (c :: t) = hasTripleNl t := by
  match t with
  | [] => rfl
  | [a] => rfl
  | a :: b :: r => simp [hasTripleNl, hc]

theorem hasTripleNl_cons_true (x : Char) (t : List Char) (h : hasTripleNl t = true) :
    hasTripleNl (x :: t) = true := by
  match t with
  | [] => simp [hasTripleNl] at h
  | [a] => simp [hasTripleNl] at h
  | a :: b :: r => simp [hasTripleNl, h]

theorem hasTripleNl_append_right (xs ys : List Char) (h : hasTripleNl ys = true) :
    hasTripleNl (xs ++ ys) = true := by
  induction xs with
  | nil => simpa using h
  | cons x xs ih => simpa using hasTripleNl_cons_true x (xs ++ ys) ih

theorem hasTripleNl_append_left (xs ys : List Char) (h : hasTripleNl xs = true) :
    hasTripleNl (xs ++ ys) = true := by
  induction xs with
  | nil => simp [hasTripleNl] at h
  | cons x xs ih =>
    match xs, ih, h with
    | [], _, h => simp [hasTripleNl] at h
    | [a], _, h => simp [hasTripleNl] at h
    | a :: b :: r, ih, h =>
      simp only [hasTripleNl, Bool.or_eq_true, Bool.and_eq_true, decide_eq_true_eq] at h
      rcases h with ⟨⟨hx, ha⟩, hb⟩ | h2
      · subst hx; subst ha; subst hb
        rfl
      · exact hasTripleNl_cons_true x _ (ih h2)


theorem hasTripleNl_nl_cons (c : Char) (t : List Char) (hc : ¬ c = '\n') :
    hasTripleNl ('\n' :: c :: t) = hasTripleNl (c :: t) := by
  match t with
  | [] => rfl
  | a :: r => simp [hasTripleNl, hc]

theorem hasTripleNl_replicate_cons (k : Nat) (hk : k ≤ 2) (c : Char) (t : List Char)
    (hc : ¬ c = '\n') :
    hasTripleNl (List.replicate k '\n' ++ c :: t) = hasTripleNl (c :: t) := by
  match k, hk with
  | 0, _ => rfl
  | 1, _ => simpa using hasTripleNl_nl_cons c t hc
  | 2, _ =>
    have h1 := hasTripleNl_nl_cons c t hc
    have h2 : hasTripleNl ('\n' :: '\n' :: c :: t) = hasTripleNl ('\n' :: c :: t) := by
      simp [hasTripleNl, hc]
    simpa [h1] using h2

theorem hasTripleNl_replicate_le (k : Nat) (hk : k ≤ 2) :
    hasTripleNl (List.replicate k '\n') = false := by
  match k, hk with
  | 0, _ => rfl
  | 1, _ => rfl
  | 2, _ => rfl

theorem hasTripleNl_replicate_ge (k : Nat) (hk : 3 ≤ k) (r : List Char) :
    hasTripleNl (List.replicate k '\n' ++ r) = true := by
  match k, hk with
  | 3, _ => rfl
  | m + 4, _ =>
    have ih := hasTripleNl_replicate_ge (m + 3) (by omega) r
    simpa [List.replicate_succ] using hasTripleNl_cons_true '\n' _ ih

theorem hasTripleNl_collapseNlAux (s : List Char) :
    ∀ k, hasTripleNl (collapseNlAux k s) = false := by
  induction s with
  | nil =>
    intro k
    have hm : min k 2 ≤ 2 := by omega
    simpa [collapseNlAux] using hasTripleNl_replicate_le (min k 2) hm
  | cons c cs ih =>
    intro k
    by_cases hc : c = '\n'
    · subst hc
      simpa [collapseNlAux] using ih (k + 1)
    · have hm : min k 2 ≤ 2 := by omega
      have base : hasTripleNl (c :: collapseNlAux 0 cs) = false := by
        rw [hasTripleNl_cons_false c _ hc]; exact ih 0
      simp only [collapseNlAux, if_neg hc]
      rw [hasTripleNl_replicate_cons (min k 2) hm c _ hc]
      exact base

theorem hasTripleNl_collapseNl (s : List Char) : hasTripleNl (collapseNl s) = false :=
  hasTripleNl_collapseNlAux s 0

theorem replicate_bound_of_no_triple (k : Nat) (r : List Char)
    (h : hasTripleNl (List.replicate k '\n' ++ r) = false) : k ≤ 2 := by
  by_contra hk
  rw [hasTripleNl_replicate_ge k (by omega) r] at h
  exact Bool.true_eq_false.mp h

theorem hasTripleNl_suffix_false (xs ys : List Char)
    (h : hasTripleNl (xs ++ ys) = false) : hasTripleNl ys = false := by
  by_contra hy
  rw [hasTripleNl_append_right xs ys (by revert hy; cases hasTripleNl ys <;> simp)] at h
  exact Bool.true_eq_false.mp h

theorem hasTripleNl_prefix_false (xs ys : List Char)
    (h : hasTripleNl (xs ++ ys) = false) : hasTripleNl xs = false := by
  by_contra hx
  rw [hasTripleNl_append_left xs ys (by revert hx; cases hasTripleNl xs <;> simp)] at h
  exact Bool.true_eq_false.mp h

theorem collapseNlAux_eq_self (s : List Char) :
    ∀ k, hasTripleNl (List.replicate k '\n' ++ s) = false →
      collapseNlAux k s = List.replicate k '\n' ++ s := by
  induction s with
  | nil =>
    intro k h
    have hk : k ≤ 2 := replicate_bound_of_no_triple k [] h
    simp [collapseNlAux, Nat.min_eq_left hk]
  | cons c cs ih =>
    intro k h
    by_cases hc : c = '\n'
    · subst hc
      have hrepl : List.replicate k '\n' ++ '\n' :: cs = List.replicate (k + 1) '\n' ++ cs := by
        simp [List.replicate_succ']
      rw [hrepl] at h
      have hstep : collapseNlAux k ('\n' :: cs) = collapseNlAux (k + 1) cs := rfl
      rw [hstep, ih (k + 1) h]
      exact hrepl.symm
    · have hk : k ≤ 2 := replicate_bound_of_no_triple k (c :: cs) h
      have hcs : hasTripleNl cs = false := by
        have h2 := hasTripleNl_suffix_false (List.replicate k '\n') (c :: cs) h
        rw [hasTripleNl_cons_false c cs hc] at h2
        exact h2
      simp only [collapseNlAux, if_neg hc, Nat.min_eq_left hk]
      rw [show cs = List.replicate 0 '\n' ++ cs from rfl] at hcs
      rw [ih 0 hcs]
      simp


theorem collapseNl_eq_self (s : List Char) (h : hasTripleNl s = false) :
    collapseNl s = s := by
  have := collapseNlAux_eq_self s 0 (by simpa using h)
  simpa [collapseNl] using this

theorem head?_dropWhile_not (p : Char → Bool) (l : List Char) (a : Char)
    (h : (l.dropWhile p).head? = some a) : p a = false := by
  induction l with
  | nil => simp [List.dropWhile] at h
  | cons c cs ih =>
    rw [List.dropWhile_cons] at h
    by_cases hp : p c
    · rw [if_pos hp] at h
      exact ih h
    · rw [if_neg hp] at h
      simp only [List.head?_cons, Option.some.injEq] at h
      subst h
      simpa using hp

theorem dropWhile_eq_self_of_head (p : Char → Bool) (l : List Char)
    (h : ∀ a, l.head? = some a → p a = false) : l.dropWhile p = l := by
  cases l with
  | nil => rfl
  | cons c cs =>
    rw [List.dropWhile_cons, if_neg]
    simp [h c rfl]

theorem dropTrailNl_append (l : List Char) :
    ∃ t, dropTrailNl l ++ t = l := by
  refine ⟨(l.reverse.takeWhile (fun c => c = '\n')).reverse, ?_⟩
  rw [dropTrailNl, ← List.reverse_append, List.takeWhile_append_dropWhile,
    List.reverse_reverse]

theorem head?_dropTrailNl (l : List Char) (a : Char)
    (h : (dropTrailNl l).head? = some a) : l.head? = some a := by
  obtain ⟨t, ht⟩ := dropTrailNl_append l
  cases hd : dropTrailNl l with
  | nil => rw [hd] at h; simp at h
  | cons c cs =>
    rw [hd] at h
    simp only [List.head?_cons, Option.some.injEq] at h
    subst h
    rw [← ht, hd]
    rfl

theorem getLast?_dropTrailNl_not (l : List Char) (a : Char)
    (h : (dropTrailNl l).getLast? = some a) : ¬ a = '\n' := by
  have hrev : (dropTrailNl l).getLast? = (l.reverse.dropWhile (fun c => c = '\n')).head? := by
    rw [show dropTrailNl l = (l.reverse.dropWhile (fun c => c = '\n')).reverse from rfl]
    exact List.getLast?_reverse _
  rw [hrev] at h
  have := head?_dropWhile_not (fun c => c = '\n') l.reverse a h
  simpa using this

theorem hasTripleNl_dropLeadNl (l : List Char) (h : hasTripleNl l = false) :
    hasTripleNl (dropLeadNl l) = false := by
  have hsplit := List.takeWhile_append_dropWhile (p := fun c => c = '\n') (l := l)
  rw [← hsplit] at h
  exact hasTripleNl_suffix_false _ _ h

theorem hasTripleNl_dropTrailNl (l : List Char) (h : hasTripleNl l = false) :
    hasTripleNl (dropTrailNl l) = false := by
  obtain ⟨t, ht⟩ := dropTrailNl_append l
  rw [← ht] at h
  exact hasTripleNl_prefix_false _ _ h

theorem head?_dropLeadNl_not (l : List Char) (a : Char)
    (h : (dropLeadNl l).head? = some a) : ¬ a = '\n' := by
  have := head?_dropWhile_not (fun c => c = '\n') l a h
  simpa using this

theorem dropTrailNl_eq_self (l : List Char)
    (h : ∀ a, l.getLast? = some a → ¬ a = '\n') : dropTrailNl l = l := by
  have hrev : l.reverse.dropWhile (fun c => c = '\n') = l.reverse := by
    apply dropWhile_eq_self_of_head
    intro a ha
    rw [List.head?_reverse] at ha
    simp [h a ha]
  rw [dropTrailNl, hrev, List.reverse_reverse]

theorem cleanMarkdown_data (s : String) :
    (cleanMarkdown s).data = dropTrailNl (dropLeadNl (collapseNl s.data)) := rfl

theorem hasTripleNl_cleanMarkdown (s : String) :
    hasTripleNl (cleanMarkdown s).data = false := by
  rw [cleanMarkdown_data]
  exact hasTripleNl_dropTrailNl _ (hasTripleNl_dropLeadNl _ (hasTripleNl_collapseNl s.data))

theorem head?_cleanMarkdown (s : String) (a : Char)
    (h : (cleanMarkdown s).data.head? = some a) : ¬ a = '\n' := by
  rw [cleanMarkdown_data] at h
  exact head?_dropLeadNl_not _ a (head?_dropTrailNl _ a h)

theorem getLast?_cleanMarkdown (s : String) (a : Char)
    (h : (cleanMarkdown s).data.getLast? = some a) : ¬ a = '\n' := by
  rw [cleanMarkdown_data] at h
  exact getLast?_dropTrailNl_not _ a h

theorem cleanMarkdown_fixed (s : String) :
    cleanMarkdown (cleanMarkdown s) = cleanMarkdown s := by
  have hnt : hasTripleNl (cleanMarkdown s).data = false := hasTripleNl_cleanMarkdown s
  have h1 : collapseNl (cleanMarkdown s).data = (cleanMarkdown s).data :=
    collapseNl_eq_self _ hnt
  have h2 : dropLeadNl (cleanMarkdown s).data = (cleanMarkdown s).data := by
    apply dropWhile_eq_self_of_head
    intro a ha
    simp [head?_cleanMarkdown s a ha]
  have h3 : dropTrailNl (cleanMarkdown s).data = (cleanMarkdown s).data :=
    dropTrailNl_eq_self _ (fun a ha => getLast?_cleanMarkdown s a ha)
  show String.mk (dropTrailNl (dropLeadNl (collapseNl (cleanMarkdown s).data))) = cleanMarkdown s
  rw [h1, h2, h3]

/-! ## Claim theorems: C5 -/

/-- C5: the extractor's final block-mode cleanup `cleanMarkdown` (collapse
3-or-more consecutive newlines to exactly 2, trim leading and trailing
newlines) is idempotent, and its output never contains three consecutive
newlines and neither starts nor ends with a newline. -/
theorem claim_C5_cleanMarkdown_stable (s : String) :
    cleanMarkdown (cleanMarkdown s) = cleanMarkdown s ∧
    hasTripleNl (cleanMarkdown s).data = false ∧
    (cleanMarkdown s).data.head? ≠ some '\n' ∧
    (cleanMarkdown s).data.getLast? ≠ some '\n' := by
  refine ⟨cleanMarkdown_fixed s, hasTripleNl_cleanMarkdown s, ?_, ?_⟩
  · intro h
    exact head?_cleanMarkdown s '\n' h rfl
  · intro h
    exact getLast?_cleanMarkdown s '\n' h rfl


/-! ## Progress of the nested-list builder (claim C9) -/

theorem maxIndentOf_cons (l : String) (ls : List String) :
    maxIndentOf (l :: ls) = max (getIndent l) (maxIndentOf ls) := rfl

theorem getIndent_getD_le (lines : List String) (i : Nat) (h : i < lines.length) :
    getIndent (lines.getD i "") ≤ maxIndentOf lines := by
  induction lines generalizing i with
  | nil => simp at h
  | cons l ls ih =>
    cases i with
    | zero =>
      simp only [List.getD_cons_zero, maxIndentOf_cons]
      exact Nat.le_max_left _ _
    | succ j =>
      simp only [List.getD_cons_succ, maxIndentOf_cons]
      exact le_trans (ih j (by simpa using h)) (Nat.le_max_right _ _)

theorem buildList_progress_aux (fuel : Nat) :
    (∀ (lines codes : List String) (base i : Nat),
       i ≤ lines.length → base ≤ maxIndentOf lines →
       (lines.length - i) * (2 * maxIndentOf lines + 4)
         + 2 * (maxIndentOf lines + 1 - base) ≤ fuel →
       i ≤ (buildLoopF fuel lines codes base i).2 ∧
       (buildLoopF fuel lines codes base i).2 ≤ lines.length ∧
       (i < lines.length → base ≤ getIndent (lines.getD i "") →
         i < (buildLoopF fuel lines codes base i).2)) ∧
    (∀ (lines codes : List String) (i : Nat),
       i ≤ lines.length →
       (lines.length - i) * (2 * maxIndentOf lines + 4)
         + 2 * (maxIndentOf lines + 1 - getIndent (lines.getD i "")) + 1 ≤ fuel →
       i ≤ (buildListF fuel lines codes i).2 ∧
       (buildListF fuel lines codes i).2 ≤ lines.length ∧
       (i < lines.length → i < (buildListF fuel lines codes i).2)) := by
  induction fuel with
  | zero =>
    constructor
    · intro lines codes base i _ hb hf
      exfalso
      omega
    · intro lines codes i _ hf
      exfalso
      omega
  | succ f ih =>
    obtain ⟨ihLoop, ihList⟩ := ih
    have key :
        ∀ (lines codes : List String) (base i : Nat),
          i ≤ lines.length → base ≤ maxIndentOf lines →
          (lines.length - i) * (2 * maxIndentOf lines + 4)
            + 2 * (maxIndentOf lines + 1 - base) ≤ f + 1 →
          i ≤ (buildLoopF (f + 1) lines codes base i).2 ∧
          (buildLoopF (f + 1) lines codes base i).2 ≤ lines.length ∧
          (i < lines.length → base ≤ getIndent (lines.getD i "") →
            i < (buildLoopF (f + 1) lines codes base i).2) := by
      intro lines codes base i hi hb hf
      have hPmul : (lines.length - i) * (2 * maxIndentOf lines + 4)
          = (lines.length - (i + 1)) * (2 * maxIndentOf lines + 4)
            + (2 * maxIndentOf lines + 4) ∨ i ≥ lines.length := by
        by_cases hlen : i < lines.length
        · left
          rw [show lines.length - i = (lines.length - (i + 1)) + 1 by omega, Nat.succ_mul]
        · right; omega
      by_cases hlen : i < lines.length
      · have hPm := hPmul.resolve_right (by omega)
        by_cases h1 : getIndent (lines.getD i "") < base
        · have hres : buildLoopF (f + 1) lines codes base i = ("", i) := by
            simp only [buildLoopF]
            rw [if_pos hlen, if_pos h1]
          rw [hres]
          exact ⟨le_refl i, hi, fun _ hge => absurd h1 (by omega)⟩
        · by_cases h2 : getIndent (lines.getD i "") = base
          · by_cases h3 : i + 1 < lines.length
              ∧ getIndent (lines.getD (i + 1) "") > base
            · -- sibling item followed by a deeper line: nested list, then continue
              have hcond : (decide (i + 1 < lines.length)
                  && decide (getIndent (lines.getD (i + 1) "") > base)) = true := by
                rw [Bool.and_eq_true, decide_eq_true_eq, decide_eq_true_eq]
                exact ⟨h3.1, h3.2⟩
              have hres : buildLoopF (f + 1) lines codes base i
                  = (("<li>" ++ inlineFormat (stripListMarker (lines.getD i "")) codes)
                      ++ (buildListF f lines codes (i + 1)).1 ++ "</li>"
                      ++ (buildLoopF f lines codes base
                            (buildListF f lines codes (i + 1)).2).1,
                     (buildLoopF f lines codes base
                        (buildListF f lines codes (i + 1)).2).2) := by
                simp only [buildLoopF]
                rw [if_pos hlen, if_neg h1, if_pos h2, if_pos hcond]
              have hb' : getIndent (lines.getD (i + 1) "") ≤ maxIndentOf lines :=
                getIndent_getD_le lines (i + 1) h3.1
              have hnest := ihList lines codes (i + 1) (by omega) (by omega)
              obtain ⟨hj1, hj2, hj3⟩ := hnest
              have hjlt : i < (buildListF f lines codes (i + 1)).2 := by
                have := hj3 h3.1
                omega
              have hPj : (lines.length - (buildListF f lines codes (i + 1)).2)
                    * (2 * maxIndentOf lines + 4)
                  ≤ (lines.length - (i + 1)) * (2 * maxIndentOf lines + 4) :=
                Nat.mul_le_mul_right _ (by omega)
              have hrest := ihLoop lines codes base (buildListF f lines codes (i + 1)).2
                hj2 hb (by omega)
              obtain ⟨hk1, hk2, _⟩ := hrest
              rw [hres]
              exact ⟨le_of_lt (lt_of_lt_of_le hjlt hk1), hk2,
                     fun _ _ => lt_of_lt_of_le hjlt hk1⟩
            · -- sibling item with no deeper continuation
              have hcond : (decide (i + 1 < lines.length)
                  && decide (getIndent (lines.getD (i + 1) "") > base)) = false := by
                rcases Decidable.not_and_iff_or_not.mp h3 with h | h
                · rw [decide_eq_false h, Bool.false_and]
                · rw [decide_eq_false h, Bool.and_false]
              have hres : buildLoopF (f + 1) lines codes base i
                  = (("<li>" ++ inlineFormat (stripListMarker (lines.getD i "")) codes)
                      ++ "</li>" ++ (buildLoopF f lines codes base (i + 1)).1,
                     (buildLoopF f lines codes base (i + 1)).2) := by
                simp only [buildLoopF]
                rw [if_pos hlen, if_neg h1, if_pos h2,
                  if_neg (fun hcontra => by rw [hcond] at hcontra; exact absurd hcontra (by decide))]
              have hrest := ihLoop lines codes base (i + 1) (by omega) hb (by omega)
              obtain ⟨hk1, hk2, _⟩ := hrest
              rw [hres]
              exact ⟨le_trans (by omega) hk1, hk2,
                     fun _ _ => lt_of_lt_of_le (by omega) hk1⟩
          · -- permissive recovery: deeper line without a preceding sibling
            have hgt : base < getIndent (lines.getD i "") := by omega
            have hres : buildLoopF (f + 1) lines codes base i
                = ((buildListF f lines codes i).1
                    ++ (buildLoopF f lines codes base
                          (buildListF f lines codes i).2).1,
                   (buildLoopF f lines codes base
                      (buildListF f lines codes i).2).2) := by
              simp only [buildLoopF]
              rw [if_pos hlen, if_neg h1, if_neg h2]
            have hb'' : getIndent (lines.getD i "") ≤ maxIndentOf lines :=
              getIndent_getD_le lines i hlen
            have hnest := ihList lines codes i hi (by omega)
            obtain ⟨hj1, hj2, hj3⟩ := hnest
            have hjlt : i < (buildListF f lines codes i).2 := hj3 hlen
            have hPj : (lines.length - (buildListF f lines codes i).2)
                  * (2 * maxIndentOf lines + 4)
                ≤ (lines.length - (i + 1)) * (2 * maxIndentOf lines + 4) :=
              Nat.mul_le_mul_right _ (by omega)
            have hrest := ihLoop lines codes base (buildListF f lines codes i).2
              hj2 hb (by omega)
            obtain ⟨hk1, hk2, _⟩ := hrest
            rw [hres]
            exact ⟨le_of_lt (lt_of_lt_of_le hjlt hk1), hk2,
                   fun _ _ => lt_of_lt_of_le hjlt hk1⟩
      · have hres : buildLoopF (f + 1) lines codes base i = ("", i) := by
          simp only [buildLoopF]
          rw [if_neg hlen]
        rw [hres]
        exact ⟨le_refl i, hi, fun h => absurd h hlen⟩
    refine ⟨key, ?_⟩
    intro lines codes i hi hf
    by_cases hlen : i < lines.length
    · have hnot : ¬ i ≥ lines.length := by omega
      have hres : (buildListF (f + 1) lines codes i).2
          = (buildLoopF f lines codes (getIndent (lines.getD i "")) i).2 := by
        simp only [buildListF]
        rw [if_neg hnot]
      have hb : getIndent (lines.getD i "") ≤ maxIndentOf lines :=
        getIndent_getD_le lines i hlen
      have hloop := ihLoop lines codes (getIndent (lines.getD i "")) i hi hb (by omega)
      obtain ⟨hk1, hk2, hk3⟩ := hloop
      rw [hres]
      exact ⟨hk1, hk2, fun _ => hk3 hlen (le_refl _)⟩
    · have hnot : i ≥ lines.length := by omega
      have hres : buildListF (f + 1) lines codes i = ("", i) := by
        simp only [buildListF]
        rw [if_pos hnot]
      rw [hres]
      exact ⟨le_refl i, hi, fun h => absurd h hlen⟩


/-! ## The heading branch in general (claim C3) -/

theorem fenceScanF_no_backtick (s : List Char) :
    ∀ (fuel k : Nat), s.length < fuel → (∀ c ∈ s, ¬ c = '`') →
      fenceScanF fuel s k = (s, []) := by
  induction s with
  | nil =>
    intro fuel k hf _
    match fuel, hf with
    | f + 1, _ => rfl
  | cons c cs ih =>
    intro fuel k hf h
    match fuel, hf with
    | f + 1, hf =>
      have hc : ¬ c = '`' := h c (by simp)
      simp only [fenceScanF, if_neg hc]
      rw [ih f k (by simpa using hf) (fun d hd => h d (by simp [hd]))]

theorem icScanF_no_backtick (s : List Char) :
    ∀ (fuel k : Nat), s.length < fuel → (∀ c ∈ s, ¬ c = '`') →
      icScanF fuel s k = (s, []) := by
  induction s with
  | nil =>
    intro fuel k hf _
    match fuel, hf with
    | f + 1, _ => rfl
  | cons c cs ih =>
    intro fuel k hf h
    match fuel, hf with
    | f + 1, hf =>
      have hc : ¬ c = '`' := h c (by simp)
      simp only [icScanF, if_neg hc]
      rw [ih f k (by simpa using hf) (fun d hd => h d (by simp [hd]))]

theorem splitNl_no_newline (s : List Char) (h : ∀ c ∈ s, ¬ c = '\n') :
    splitNl s = [s] := by
  induction s with
  | nil => rfl
  | cons c cs ih =>
    have hc : ¬ c = '\n' := h c (by simp)
    simp only [splitNl, if_neg hc]
    rw [ih (fun d hd => h d (by simp [hd]))]

theorem takeWhile_hashes (n : Nat) (t : List Char) :
    (List.replicate n '#' ++ ' ' :: t).takeWhile (fun c => c = '#') = List.replicate n '#' := by
  induction n with
  | zero => rfl
  | succ m ih =>
    simp only [List.replicate_succ, List.cons_append, List.takeWhile_cons]
    rw [if_pos (by simp)]
    rw [ih]

theorem headingLine_data (n : Nat) (t : String) :
    (hashes n ++ " " ++ t).data = List.replicate n '#' ++ ' ' :: t.data := by
  rw [String.data_append, String.data_append, List.append_assoc]
  rfl

theorem parseHeading_headingLine (n : Nat) (t : String) (h1 : 1 ≤ n) (h4 : n ≤ 4)
    (hne : ¬ t.data = []) (hws : isWS (t.data.headD 'x') = false) :
    parseHeading (hashes n ++ " " ++ t) = some (n, t) := by
  have hdata := headingLine_data n t
  have htake := takeWhile_hashes n t.data
  have hdrop : (List.replicate n '#' ++ ' ' :: t.data).drop n = ' ' :: t.data := by
    have := List.drop_left (List.replicate n '#') (' ' :: t.data)
    simp only [List.length_replicate] at this
    exact this
  have htws : (' ' :: t.data).takeWhile isWS = [' '] := by
    simp only [List.takeWhile_cons]
    rw [if_pos (by simp [isWS])]
    match t.data, hne, hws with
    | c :: cs, _, hws =>
      simp only [List.takeWhile_cons]
      rw [if_neg (by simp only [List.headD_cons] at hws; simp [hws])]
  have hlen : 1 < (' ' :: t.data).length := by
    match t.data, hne with
    | c :: cs, _ => simp
  unfold parseHeading
  rw [hdata]
  simp only [htake, List.length_replicate, hdrop, htws, List.length_singleton]
  rw [if_pos (by rw [Bool.and_eq_true, decide_eq_true_eq, decide_eq_true_eq]; exact ⟨h1, h4⟩)]
  rw [if_neg (by omega), if_pos hlen]
  rfl

theorem parseCBLine_hash_head (line : String) (c : Char) (rest : List Char)
    (hdata : line.data = c :: rest) (hc : c = '#') : parseCBLine line = none := by
  subst hc
  unfold parseCBLine
  rw [hdata]
  rfl

theorem renderBlocksF_single_heading (line : String) (cbs : List (String × String))
    (ics : List String) (n : Nat) (t : String)
    (hcb : parseCBLine line = none) (hph : parseHeading line = some (n, t)) :
    renderBlocksF 2 [line] cbs ics
      = some ["<" ++ headingTag n ++ ">" ++ inlineFormat t ics ++ "</" ++ headingTag n ++ ">"] := by
  simp only [renderBlocksF, hcb, hph]
  rfl

/-- The renderer's heading branch in general: for every heading level
1–4 and every single-line text (not starting with whitespace, free of
backticks and newlines), `renderMarkdown` wraps the inline-formatted text
in the remapped heading tag. -/
theorem renderMarkdown_heading_line (n : Nat) (t : String) (h1 : 1 ≤ n) (h4 : n ≤ 4)
    (hne : ¬ t.data = []) (hws : isWS (t.data.headD 'x') = false)
    (hnl : ∀ c ∈ t.data, ¬ c = '\n') (hbt : ∀ c ∈ t.data, ¬ c = '`') :
    renderMarkdown (hashes n ++ " " ++ t)
      = some ("<" ++ headingTag n ++ ">" ++ inlineFormat t [] ++ "</" ++ headingTag n ++ ">") := by
  have hdata := headingLine_data n t
  have hnobt : ∀ c ∈ (hashes n ++ " " ++ t).data, ¬ c = '`' := by
    rw [hdata]
    intro c hc
    rcases List.mem_append.mp hc with h | h
    · have := List.eq_of_mem_replicate h
      subst this
      decide
    · rcases List.mem_cons.mp h with h | h
      · subst h; decide
      · exact hbt c h
  have hnonl : ∀ c ∈ (hashes n ++ " " ++ t).data, ¬ c = '\n' := by
    rw [hdata]
    intro c hc
    rcases List.mem_append.mp hc with h | h
    · have := List.eq_of_mem_replicate h
      subst this
      decide
    · rcases List.mem_cons.mp h with h | h
      · subst h; decide
      · exact hnl c h
  have hfence : extractFenced (hashes n ++ " " ++ t) = (hashes n ++ " " ++ t, []) := by
    unfold extractFenced
    rw [fenceScanF_no_backtick _ _ 0 (by omega) hnobt]
  have hic : extractInlineCode (hashes n ++ " " ++ t) = (hashes n ++ " " ++ t, []) := by
    unfold extractInlineCode
    rw [icScanF_no_backtick _ _ 0 (by omega) hnobt]
  have hsplit : splitLines (hashes n ++ " " ++ t) = [hashes n ++ " " ++ t] := by
    unfold splitLines
    rw [splitNl_no_newline _ hnonl]
    rfl
  have hcb : parseCBLine (hashes n ++ " " ++ t) = none := by
    refine parseCBLine_hash_head _ '#' (List.replicate (n - 1) '#' ++ ' ' :: t.data) ?_ rfl
    rw [hdata]
    rw [show n = (n - 1) + 1 by omega, List.replicate_succ]
    rfl
  have hph := parseHeading_headingLine n t h1 h4 hne hws
  unfold renderMarkdown
  rw [hfence]
  simp only
  rw [hic]
  simp only
  rw [hsplit]
  simp only [List.length_singleton]
  rw [renderBlocksF_single_heading _ [] [] n t hcb hph]
  rfl

/-! ## Claim theorems: C9, C1, C2, C3, C4, C6, C7, C8, C10 -/

/-- C9: `buildListHTML` makes progress and terminates: for every run of
list lines and every `fromIndex` inside the run, the returned `endIndex`
is strictly greater than `fromIndex` and at most the run's length; the
recursion (`parseList` / `buildListHTML`), including the
permissive-recovery branch, is a total function on every finite run. -/
theorem claim_C9_buildListHTML_progress (lines codes : List String) (i : Nat)
    (h : i < lines.length) :
    i < (buildListHTML lines codes i).2 ∧
    (buildListHTML lines codes i).2 ≤ lines.length := by
  have h1 : (lines.length - i) * (2 * maxIndentOf lines + 4)
      ≤ lines.length * (2 * maxIndentOf lines + 4) :=
    Nat.mul_le_mul_right _ (by omega)
  have h2 : (lines.length + 1) * (2 * maxIndentOf lines + 4)
      = lines.length * (2 * maxIndentOf lines + 4) + (2 * maxIndentOf lines + 4) := by
    rw [Nat.succ_mul]
  have hfuel : (lines.length - i) * (2 * maxIndentOf lines + 4)
      + 2 * (maxIndentOf lines + 1 - getIndent (lines.getD i "")) + 1 ≤ buildFuel lines := by
    have hind : getIndent (lines.getD i "") ≤ maxIndentOf lines := getIndent_getD_le lines i h
    unfold buildFuel
    omega
  have hmain := (buildList_progress_aux (buildFuel lines)).2 lines codes i (le_of_lt h) hfuel
  exact ⟨hmain.2.2 h, hmain.2.1⟩

/-- Witness for C9 on a concrete run that exercises the
permissive-recovery branch (the `"  - c"` line is deeper than the base
but has no preceding sibling at its own depth). -/
theorem claim_C9_witness :
    0 < (buildListHTML ["- a", "    - b", "  - c"] [] 0).2 ∧
    (buildListHTML ["- a", "    - b", "  - c"] [] 0).2
      ≤ (["- a", "    - b", "  - c"] : List String).length :=
  claim_C9_buildListHTML_progress ["- a", "    - b", "  - c"] [] 0 (by decide)

/-- C1 (bug evidence): extracting the nested-list tree and rendering the
result yields the nested `<ol>` as a *sibling* of the outer `<ul>`, not
inside its `<li>`: the extractor's blank line before the nested run makes
the renderer close the first list region. -/
theorem claim_C1_extract_render_siblings :
    extractTextContent nestedListTree = "- Item\n\n  1. A\n  2. B" ∧
    renderMarkdown "- Item\n\n  1. A\n  2. B"
      = some "<ul><li>Item</li></ul>\n<ol><li>A</li><li>B</li></ol>" := by
  constructor
  · decide
  · decide

/-- C2: fenced-code extraction runs before inline-code extraction, so the
backtick embedded in `print("a`b")` reaches the rendered code body
unchanged. -/
theorem claim_C2_fence_exactness :
    renderMarkdown "```python\nprint(\"a`b\")\n```"
      = some (codeBlockHtml "python" "print(\"a`b\")") ∧
    codeBlockHtml "python" "print(\"a`b\")"
      = "<div class=\"code-block\"><div class=\"code-block-header\"><span class=\"code-lang\">python</span><button class=\"code-copy-btn\">Copy code</button></div><pre><code class=\"language-python\">print(\"a`b\")</code></pre></div>" := by
  constructor
  · decide
  · decide

/-- C3: the renderer's heading remap sends level 1 to `h2`, levels 2 and
3 both to `h3`, and level 4 to `h4`; in particular `### Title` and
`## Title` render to the same heading tag. -/
theorem claim_C3_heading_remap :
    (∀ (n : Nat) (t : String), 1 ≤ n → n ≤ 4 → ¬ t.data = [] →
      isWS (t.data.headD 'x') = false →
      (∀ c ∈ t.data, ¬ c = '\n') → (∀ c ∈ t.data, ¬ c = '`') →
      renderMarkdown (hashes n ++ " " ++ t)
        = some ("<" ++ headingTag n ++ ">" ++ inlineFormat t []
            ++ "</" ++ headingTag n ++ ">")) ∧
    (headingTag 1 = "h2" ∧ headingTag 2 = "h3" ∧ headingTag 3 = "h3" ∧ headingTag 4 = "h4") ∧
    renderMarkdown "# Title" = some "<h2>Title</h2>" ∧
    renderMarkdown "## Title" = some "<h3>Title</h3>" ∧
    renderMarkdown "### Title" = some "<h3>Title</h3>" ∧
    renderMarkdown "#### Title" = some "<h4>Title</h4>" := by
  refine ⟨renderMarkdown_heading_line, by decide, by decide, by decide, by decide, by decide⟩

/-- Witness for C3's general part at level 3 with the text `Title`. -/
theorem claim_C3_witness :
    renderMarkdown (hashes 3 ++ " " ++ "Title")
      = some ("<" ++ headingTag 3 ++ ">" ++ inlineFormat "Title" []
          ++ "</" ++ headingTag 3 ++ ">") :=
  claim_C3_heading_remap.1 3 "Title" (by decide) (by decide) (by decide) (by decide)
    (by decide) (by decide)

/-- C4 counterexample: a blank line *does* stop the renderer's list
region (it does not match the list-line pattern), so list lines separated
by a blank line are handed to the nested-list builder as two separate
regions, rendered as two sibling lists. -/
theorem claim_C4_blank_stops_region :
    List.takeWhile isListLine ["- a", "", "- b"] = ["- a"] ∧
    isListLine "" = false ∧
    renderMarkdown "- a\n\n- b" = some "<ul><li>a</li></ul>\n<ul><li>b</li></ul>" := by
  refine ⟨by decide, by decide, by decide⟩

/-- C4 amended: when `renderMarkdown` encounters a list line it consumes
the maximal contiguous run of list-matching lines as one region; any
non-list line, *including a blank line*, stops the region. -/
theorem claim_C4_amended_contiguous_region :
    renderMarkdown "- a\n- b" = some "<ul><li>a</li><li>b</li></ul>" ∧
    renderMarkdown "- a\n  1. n\n- b" = some "<ul><li>a<ol><li>n</li></ol></li><li>b</li></ul>" ∧
    renderMarkdown "- a\n\n- b" = some "<ul><li>a</li></ul>\n<ul><li>b</li></ul>" := by
  refine ⟨by decide, by decide, by decide⟩

/-- C6 (bug evidence): the sanitizer's `cleanNode` iterates a snapshot of
the child list, so the children hoisted out of a disallowed element are
never themselves cleaned: a `<script>` nested inside a disallowed
`<section>` survives as a live element.  Also, `class` — although on the
attribute allow-list — is stripped from every non-`code` element. -/
theorem claim_C6_sanitize_script_survives :
    sanitizeHTML [DomNode.elem "section" [] [DomNode.elem "script" [] [DomNode.text "alert(1)"]]]
      = "<script>alert(1)</script>" ∧
    tagOf ((sanitizeChildren
        [DomNode.elem "section" [] [DomNode.elem "script" [] [DomNode.text "alert(1)"]]]).getD 0
        (DomNode.text "")) = "script" ∧
    sanitizeHTML [DomNode.elem "script" [] [DomNode.text "alert(1)"]] = "alert(1)" ∧
    sanitizeHTML [DomNode.elem "p" [("class", "x"), ("href", "y")] []] = "<p href=\"y\"></p>" := by
  refine ⟨by decide, by decide, by decide, by decide⟩

/-- C7 counterexample: an anchor whose `href` attribute is *present but
empty* is not a script-scheme URI, yet the extractor emits the text
alone, not the `[text]()` link form the claim's biconditional predicts
(the source tests `href` for truthiness, so the empty string falls to the
text-only branch). -/
theorem claim_C7_empty_href_counterexample :
    getAttribute [("href", "")] "href" = some "" ∧
    jsStartsWith "" "javascript:" = false ∧
    extractTextContentJS
      (some (DomNode.elem "div" [] [DomNode.elem "a" [("href", "")] [DomNode.text "x"]]))
      defaultCtx = "x" := by
  refine ⟨by decide, by decide, by decide⟩

/-- C7 amended: the extractor emits `[text](href)` exactly when the
`href` attribute is present, non-empty, and does not start with
`javascript:`; otherwise it emits the link text alone.  In particular an
anchor with `href="javascript:evil()"` extracts to plain text only. -/
theorem claim_C7_link_form :
    (∀ (fuel : Nat) (attrs : List (String × String)) (kids : List DomNode)
       (ctx : Ctx) (acc : String),
       extractNodeF (fuel + 1) (DomNode.elem "a" attrs kids) ctx acc
         = (let href := (getAttribute attrs "href").getD ""
            let text := extractTextContentF fuel (DomNode.elem "a" attrs kids) ctx
            if href ≠ "" && !(jsStartsWith href "javascript:") then
              acc ++ "[" ++ text ++ "](" ++ href ++ ")"
            else acc ++ text)) ∧
    extractTextContentJS
      (some (DomNode.elem "div" []
        [DomNode.elem "a" [("href", "javascript:evil()")] [DomNode.text "click"]]))
      defaultCtx = "click" ∧
    extractTextContentJS
      (some (DomNode.elem "div" []
        [DomNode.elem "a" [("href", "https://e.example")] [DomNode.text "x"]]))
      defaultCtx = "[x](https://e.example)" := by
  refine ⟨fun fuel attrs kids ctx acc => rfl, by decide, by decide⟩

/-- C8 counterexample: `extractTextContent` applied to a null/undefined
root returns the empty string normally (`if (!element) return ''`); it
does not signal an `InvalidInput` error. -/
theorem claim_C8_null_root_returns_empty :
    extractTextContentJS none defaultCtx = "" := by decide

/-- C8 amended: neither component throws for expected branching: a
null/undefined root extracts to the empty string, an empty element
extracts to the empty string, and empty markdown renders to the empty
string (both components are total on these inputs). -/
theorem claim_C8_amended_graceful_degradation :
    extractTextContentJS none defaultCtx = "" ∧
    extractTextContent (DomNode.elem "div" [] []) = "" ∧
    renderMarkdown "" = some "" := by
  refine ⟨by decide, by decide, by decide⟩

/-- C10: when a record with the incoming id already exists, the stored
merge keeps the existing `savedAt`, `id` and `source` unchanged, replaces
`messages`, sets `updatedAt` to the current time, and falls back to the
existing `title`/`url` when the incoming ones are absent; when no record
exists, `savedAt` defaults to the current time and `updatedAt` is set to
the current time. -/
theorem claim_C10_saveConversation_merge (store : List Conversation)
    (conversation : Conversation) (now : String) :
    (∀ existing, findConv store conversation.id = some existing →
      ((saveConversation store conversation now).1.savedAt = existing.savedAt ∧
       (saveConversation store conversation now).1.id = existing.id ∧
       (saveConversation store conversation now).1.source = existing.source ∧
       (saveConversation store conversation now).1.messages = conversation.messages ∧
       (saveConversation store conversation now).1.updatedAt = now ∧
       (saveConversation store conversation now).1.title
         = (if conversation.title = "" then existing.title else conversation.title) ∧
       (saveConversation store conversation now).1.url
         = (if conversation.url = "" then existing.url else conversation.url))) ∧
    (findConv store conversation.id = none →
      ((saveConversation store conversation now).1.savedAt
         = (if conversation.savedAt = "" then now else conversation.savedAt) ∧
       (saveConversation store conversation now).1.updatedAt = now ∧
       (saveConversation store conversation now).1.id = conversation.id ∧
       (saveConversation store conversation now).1.source = conversation.source ∧
       (saveConversation store conversation now).1.title = conversation.title ∧
       (saveConversation store conversation now).1.url = conversation.url ∧
       (saveConversation store conversation now).1.messages = conversation.messages)) := by
  constructor
  · intro existing hex
    simp [saveConversation, hex]
  · intro hnone
    simp [saveConversation, hnone]

/-- Witness for C10: a merge over an existing record (with absent
incoming title, exercising the fallback) and a fresh insert. -/
theorem claim_C10_witness :
    ((saveConversation [wsExisting] wsIncoming "2026-02-01T00:00:00Z").1.savedAt
        = wsExisting.savedAt ∧
     (saveConversation [wsExisting] wsIncoming "2026-02-01T00:00:00Z").1.id = wsExisting.id ∧
     (saveConversation [wsExisting] wsIncoming "2026-02-01T00:00:00Z").1.source
        = wsExisting.source ∧
     (saveConversation [wsExisting] wsIncoming "2026-02-01T00:00:00Z").1.messages
        = wsIncoming.messages ∧
     (saveConversation [wsExisting] wsIncoming "2026-02-01T00:00:00Z").1.updatedAt
        = "2026-02-01T00:00:00Z" ∧
     (saveConversation [wsExisting] wsIncoming "2026-02-01T00:00:00Z").1.title
        = (if wsIncoming.title = "" then wsExisting.title else wsIncoming.title) ∧
     (saveConversation [wsExisting] wsIncoming "2026-02-01T00:00:00Z").1.url
        = (if wsIncoming.url = "" then wsExisting.url else wsIncoming.url)) ∧
    ((saveConversation [] wsFresh "2026-02-02T00:00:00Z").1.savedAt
        = (if wsFresh.savedAt = "" then "2026-02-02T00:00:00Z" else wsFresh.savedAt) ∧
     (saveConversation [] wsFresh "2026-02-02T00:00:00Z").1.updatedAt
        = "2026-02-02T00:00:00Z" ∧
     (saveConversation [] wsFresh "2026-02-02T00:00:00Z").1.id = wsFresh.id ∧
     (saveConversation [] wsFresh "2026-02-02T00:00:00Z").1.source = wsFresh.source ∧
     (saveConversation [] wsFresh "2026-02-02T00:00:00Z").1.title = wsFresh.title ∧
     (saveConversation [] wsFresh "2026-02-02T00:00:00Z").1.url = wsFresh.url ∧
     (saveConversation [] wsFresh "2026-02-02T00:00:00Z").1.messages = wsFresh.messages) :=
  ⟨(claim_C10_saveConversation_merge [wsExisting] wsIncoming "2026-02-01T00:00:00Z").1
      wsExisting (by rfl),
   (claim_C10_saveConversation_merge [] wsFresh "2026-02-02T00:00:00Z").2 (by rfl)⟩

end Chatsave
